import Mathlib

/-!
Shallow embedding of the extension allow-list policy evaluator
(`AllowedExtensionsService` in
`src/vs/platform/extensionManagement/common/allowedExtensionsService.ts`).

The evaluator decides, for an extension descriptor, whether the extension is
permitted under an administrator-configured policy table mapping lowercase
extension ids, publisher names, or the wildcard `*` to permission values
(boolean, the string marker `"release"`, or a list of
`<major>.<minor>.<patch>[-suffix][@platform]` version-descriptor strings).
-/

namespace AllowedExtensions

/-- A permission value in the policy table: the configuration maps each key to
a boolean, a string, or an array of strings
(`AllowedExtensionsConfigValueType = IStringDictionary<boolean | string | string[]>`). -/
inductive AllowedValue where
  | bool (b : Bool)
  | str (s : String)
  | list (entries : List String)
deriving DecidableEq, Repr

/-- The raw configuration value read from settings: it may be absent
(`undefined`), a non-object value, a top-level array, or an object with
string keys. -/
inductive ConfigValue where
  | undef
  | nonObject
  | array
  | obj (entries : List (String × AllowedValue))
deriving Repr

/-- The normalized policy table: an association list of lowercase keys.
JavaScript object semantics (`Object.fromEntries`, property assignment in a
loop) make the *last* binding for a key win, so lookups search from the end. -/
abbrev Table := List (String × AllowedValue)

/-- JavaScript object property lookup for tables built left-to-right:
the last entry with the key wins. -/
def assocLast {α : Type} (l : List (String × α)) (k : String) : Option α :=
  (l.reverse.find? (fun e => e.1 == k)).map (·.2)

/-- JavaScript `String.prototype.toLowerCase`, per character (all strings the
service lowercases are identifiers, for which per-character lowering agrees
with the JavaScript locale-independent behaviour). -/
def jsToLower (s : String) : String :=
  (s.data.map Char.toLower).asString

/-- `getAllowedExtensionsValue`: lowercase every top-level key; a non-object
or array value yields no policy; a singleton table `{"*": true}` collapses to
no policy. -/
def getAllowedExtensionsValue : ConfigValue → Option Table
  | .obj rawEntries =>
    let entries := rawEntries.map (fun e => (jsToLower e.1, e.2))
    if entries.length == 1 && (entries.head?.map Prod.fst) == some "*" &&
        (entries.head?.map Prod.snd) == some (.bool true) then
      none
    else
      some entries
  | _ => none

/-- `TargetPlatform.UNIVERSAL` from `extensions.ts` is the string literal
`'universal'`; target platforms are modelled as plain strings. -/
def TargetPlatform.universal : String := "universal"

/-- Marketplace gallery record (`IGalleryExtension`): carries
`identifier.id`, `version`, `properties.isPreReleaseVersion`, `publisher`,
and `properties.targetPlatform`. -/
structure GalleryExtension where
  id : String
  version : String
  isPreReleaseVersion : Bool
  publisher : String
  targetPlatform : String
deriving DecidableEq, Repr

/-- Installed extension record (`IExtension`): carries `identifier.id`,
`manifest.version`, `preRelease`, `manifest.publisher`, `targetPlatform`. -/
structure InstalledExtension where
  id : String
  manifestVersion : String
  preRelease : Bool
  manifestPublisher : String
  targetPlatform : String
deriving DecidableEq, Repr

/-- Minimal record `{ id; version?; prerelease?; targetPlatform? }`. -/
structure MinimalDescriptor where
  id : String
  version : Option String
  prerelease : Option Bool
  targetPlatform : Option String
deriving DecidableEq, Repr

/-- The polymorphic input of `isAllowed`: one of the three record shapes. -/
inductive ExtensionDescriptor where
  | gallery (g : GalleryExtension)
  | installed (i : InstalledExtension)
  | minimal (m : MinimalDescriptor)
deriving DecidableEq, Repr

/-- The five fields `isAllowed` derives from a descriptor before any lookup. -/
structure NormalizedFields where
  id : String
  version : String
  prerelease : Bool
  publisher : String
  targetPlatform : String
deriving DecidableEq, Repr

/-- JavaScript `String.prototype.indexOf` restricted to a single character:
the index of the first occurrence, or `-1`. -/
def jsIndexOf (s : String) (c : Char) : Int :=
  match s.data.findIdx? (fun x => x == c) with
  | some n => (n : Int)
  | none => -1

/-- JavaScript `String.prototype.substring`: clamps both arguments into
`[0, length]` and swaps them when start exceeds end. -/
def jsSubstring (s : String) (a b : Int) : String :=
  let len : Int := (s.data.length : Int)
  let a' : Nat := (max 0 (min a len)).toNat
  let b' : Nat := (max 0 (min b len)).toNat
  let lo := min a' b'
  let hi := max a' b'
  ((s.data.drop lo).take (hi - lo)).asString

/-- Field normalization performed at the top of `isAllowed` for each of the
three shapes. For the minimal record, a missing version becomes `*`, a
missing target platform becomes universal, a missing prerelease flag becomes
`false`, and the publisher is `id.substring(0, id.indexOf('.'))` lowercased. -/
def normalizeFields : ExtensionDescriptor → NormalizedFields
  | .gallery g =>
    { id := jsToLower g.id
      version := g.version
      prerelease := g.isPreReleaseVersion
      publisher := jsToLower g.publisher
      targetPlatform := g.targetPlatform }
  | .installed i =>
    { id := jsToLower i.id
      version := i.manifestVersion
      prerelease := i.preRelease
      publisher := jsToLower i.manifestPublisher
      targetPlatform := i.targetPlatform }
  | .minimal m =>
    { id := jsToLower m.id
      version := m.version.getD "*"
      prerelease := m.prerelease.getD false
      publisher := jsToLower (jsSubstring m.id 0 (jsIndexOf m.id '.'))
      targetPlatform := m.targetPlatform.getD TargetPlatform.universal }

/-- Model of `VersionRegex = /^(?<version>\d+\.\d+\.\d+(-.*)?)(@(?<platform>.+))?$/`
applied to one version-descriptor entry, returning the `version` and
`platform` capture groups on a match. Each `\d+` is forced to the maximal
digit run (a shorter run would place a digit where a literal `.` is
required); a greedy `(-.*)?` swallows the rest of the string — including any
`@platform` suffix — whenever the character after the semver core is `-`;
an `@` must be followed by at least one character. -/
def parseVersionEntry (s : String) : Option (String × Option String) := do
  let chompDigits : List Char → Option (List Char × List Char) := fun l =>
    match l.span (fun c => c.isDigit) with
    | ([], _) => none
    | (ds, rest) => some (ds, rest)
  let chompDot : List Char → Option (List Char) := fun l =>
    match l with
    | '.' :: rest => some rest
    | _ => none
  let (d1, r1) ← chompDigits s.data
  let r1 ← chompDot r1
  let (d2, r2) ← chompDigits r1
  let r2 ← chompDot r2
  let (d3, r3) ← chompDigits r2
  let core := d1 ++ '.' :: d2 ++ '.' :: d3
  match r3 with
  | [] => some (core.asString, none)
  | '-' :: _ => some ((core ++ r3).asString, none)
  | '@' :: [] => none
  | '@' :: p => some (core.asString, some p.asString)
  | _ => none

/-- The predicate passed to `extensionValue.some(...)` in `isAllowed`: an
entry matches when it parses against the version regex, its version capture
equals the descriptor's version, and — only when the descriptor's target
platform is not universal and the entry has a (truthy) platform capture —
the platforms are equal. -/
def matchesEntry (version targetPlatform : String) (entry : String) : Bool :=
  match parseVersionEntry entry with
  | none => false
  | some (v, p) =>
    if v != version then
      false
    else if targetPlatform != TargetPlatform.universal && (p.getD "") != ""
        && targetPlatform != (p.getD "") then
      false
    else
      true

/-- The distinct denial messages constructed in `isAllowed` (the localized
markdown strings, abstracted to reason codes). -/
inductive Reason where
  | notInAllowedList
  | prereleaseOfExtensionNotAllowed
  | publisherNotAllowed
  | prereleaseFromPublisherNotAllowed
deriving DecidableEq, Repr

/-- The result of `isAllowed`: `true`, or a markdown denial reason. -/
inductive Verdict where
  | allowed
  | denied (reason : Reason)
deriving DecidableEq, Repr

/-- The id-level branch of `isAllowed` (the body guarded by
`!isUndefined(extensionValue)`): booleans decide outright; `"release"`
against a prerelease descriptor denies; an array value with a concrete
version denies unless some entry matches; everything else is permitted. -/
def idLevelVerdict (v : AllowedValue) (f : NormalizedFields) : Verdict :=
  match v with
  | .bool b => if b then .allowed else .denied .notInAllowedList
  | .str s =>
    if s == "release" && f.prerelease then
      .denied .prereleaseOfExtensionNotAllowed
    else
      .allowed
  | .list entries =>
    if f.version != "*" && !(entries.any (matchesEntry f.version f.targetPlatform)) then
      .denied .notInAllowedList
    else
      .allowed

/-- The publisher-level branch of `isAllowed` (the body guarded by
`!isUndefined(publisherValue)`): booleans decide outright; `"release"`
against a prerelease descriptor denies; any other value — including an
array — is permitted with no version filtering. -/
def publisherLevelVerdict (v : AllowedValue) (f : NormalizedFields) : Verdict :=
  match v with
  | .bool b => if b then .allowed else .denied .publisherNotAllowed
  | .str s =>
    if s == "release" && f.prerelease then
      .denied .prereleaseFromPublisherNotAllowed
    else
      .allowed
  | .list _ => .allowed

/-- The publisher-key normalization
`publisher = this.publisherMappings[publisher]?.toLowerCase() ?? publisher`. -/
def resolvedPublisher (aliases : List (String × String))
    (f : NormalizedFields) : String :=
  ((assocLast aliases f.publisher).map jsToLower).getD f.publisher

/-- `isAllowed` after field normalization: id-level lookup first; otherwise
the publisher is rewritten through the alias table and looked up; otherwise
the wildcard key permits only when bound to exactly `true`; otherwise the
generic denial. -/
def isAllowedFields (aliases : List (String × String)) (t : Table)
    (f : NormalizedFields) : Verdict :=
  match assocLast t f.id with
  | some extensionValue => idLevelVerdict extensionValue f
  | none =>
    match assocLast t (resolvedPublisher aliases f) with
    | some publisherValue => publisherLevelVerdict publisherValue f
    | none =>
      if assocLast t "*" == some (.bool true) then
        .allowed
      else
        .denied .notInAllowedList

/-- `isAllowed`: permit immediately when no policy table is loaded, else
normalize the descriptor and evaluate the layered rules. -/
def isAllowed (aliases : List (String × String)) (table : Option Table)
    (d : ExtensionDescriptor) : Verdict :=
  match table with
  | none => .allowed
  | some t => isAllowedFields aliases t (normalizeFields d)

/-- End-to-end evaluation from a raw configuration value. -/
def evaluateConfig (aliases : List (String × String)) (cfg : ConfigValue)
    (d : ExtensionDescriptor) : Verdict :=
  isAllowed aliases (getAllowedExtensionsValue cfg) d

/-- For a universal-target descriptor the platform conjunct of the entry
check short-circuits to false, so an entry matches exactly when it parses
and its version capture equals the descriptor's version. -/
lemma matchesEntry_universal (ver e : String) :
    matchesEntry ver TargetPlatform.universal e = true ↔
      ∃ p, parseVersionEntry e = some (ver, p) := by
  unfold matchesEntry
  cases hp : parseVersionEntry e with
  | none => simp
  | some vp =>
    obtain ⟨v, p⟩ := vp
    by_cases hv : v = ver
    · subst hv
      simp
    · simp [bne_iff_ne, hv]

/-- C1 counterexample: the claim states that for a universal-target
descriptor a platform-suffixed id-level entry never matches, so with the
sequence `["1.2.3@win32"]` and version `1.2.3` the verdict should be denied;
the code skips the platform check whenever the descriptor's target platform
is universal, so the entry matches on version alone and the verdict is
permitted. All of the claim's premises hold at this input: the entry parses
with platform suffix `win32`, which is not the universal marker; the
descriptor's target platform is universal and its version is not `*`. -/
theorem C1_counterexample :
    parseVersionEntry "1.2.3@win32" = some ("1.2.3", some "win32") ∧
    "win32" ≠ TargetPlatform.universal ∧
    (normalizeFields (.minimal ⟨"pub.ext", some "1.2.3", none, none⟩)).targetPlatform
      = TargetPlatform.universal ∧
    (normalizeFields (.minimal ⟨"pub.ext", some "1.2.3", none, none⟩)).version ≠ "*" ∧
    isAllowed [] (some [("pub.ext", .list ["1.2.3@win32"])])
      (.minimal ⟨"pub.ext", some "1.2.3", none, none⟩) = .allowed :=
  ⟨by decide, by decide, by decide, by decide, by decide⟩

/-- C1 (amended): for every descriptor whose target platform is universal,
when the id's policy value is a version-descriptor sequence and the
descriptor's version is not `*`, the platform suffixes of the entries are
ignored entirely: evaluate returns permitted exactly when some entry parses
against the version regex with a version capture equal to the descriptor's
version (and returns denied otherwise) — a platform-suffixed entry does
count as a match for a universal-target descriptor whenever its version
component matches. -/
theorem C1_theorem (aliases : List (String × String)) (t : Table)
    (d : ExtensionDescriptor) (entries : List String)
    (h1 : assocLast t (normalizeFields d).id = some (.list entries))
    (h2 : (normalizeFields d).targetPlatform = TargetPlatform.universal)
    (h3 : (normalizeFields d).version ≠ "*") :
    isAllowed aliases (some t) d = .allowed ↔
      ∃ e ∈ entries, ∃ p,
        parseVersionEntry e = some ((normalizeFields d).version, p) := by
  have hv : ((normalizeFields d).version != "*") = true := bne_iff_ne.mpr h3
  simp only [isAllowed, isAllowedFields, h1, idLevelVerdict, h2, hv, Bool.true_and]
  cases hany : entries.any
      (matchesEntry (normalizeFields d).version TargetPlatform.universal) with
  | true =>
    obtain ⟨e, he, hm⟩ := List.any_eq_true.mp hany
    exact iff_of_true (by simp) ⟨e, he, (matchesEntry_universal _ _).mp hm⟩
  | false =>
    refine iff_of_false (by simp) ?_
    rintro ⟨e, he, p, hp⟩
    have : entries.any
        (matchesEntry (normalizeFields d).version TargetPlatform.universal) = true :=
      List.any_eq_true.mpr ⟨e, he, (matchesEntry_universal _ _).mpr ⟨p, hp⟩⟩
    rw [hany] at this
    exact Bool.false_ne_true this

/-- C1 witness: the amended theorem applied to the sequence
`["2.0.0@linux"]` and a universal-target descriptor with version `2.0.0`. -/
theorem C1_witness :
    isAllowed [] (some [("a.b", AllowedValue.list ["2.0.0@linux"])])
        (.minimal ⟨"a.b", some "2.0.0", none, none⟩) = .allowed ↔
      ∃ e ∈ ["2.0.0@linux"], ∃ p, parseVersionEntry e = some ("2.0.0", p) :=
  C1_theorem [] [("a.b", .list ["2.0.0@linux"])]
    (.minimal ⟨"a.b", some "2.0.0", none, none⟩) ["2.0.0@linux"]
    (by decide) (by decide) (by decide)

/-- C2: when the descriptor's lowercase id is a key of the policy table, the
id-level entry decides the verdict by itself — two tables binding the id to
the same value give the same verdict whatever their publisher or wildcard
entries — an id-level entry not disqualified by its own boolean, prerelease
or version checks yields permitted, and the table
`{"pub.ext": false, "pub": true}` denies id `pub.ext` at version `*`. -/
theorem C2_theorem :
    (∀ (a₁ a₂ : List (String × String)) (t₁ t₂ : Table)
        (d : ExtensionDescriptor) (v : AllowedValue),
        assocLast t₁ (normalizeFields d).id = some v →
        assocLast t₂ (normalizeFields d).id = some v →
        isAllowed a₁ (some t₁) d = isAllowed a₂ (some t₂) d) ∧
    (∀ (a : List (String × String)) (t : Table) (d : ExtensionDescriptor)
        (v : AllowedValue),
        assocLast t (normalizeFields d).id = some v →
        v ≠ .bool false →
        ¬(v = .str "release" ∧ (normalizeFields d).prerelease = true) →
        (∀ entries, v = .list entries →
          (normalizeFields d).version = "*" ∨
            entries.any (matchesEntry (normalizeFields d).version
              (normalizeFields d).targetPlatform) = true) →
        isAllowed a (some t) d = .allowed) ∧
    isAllowed [] (some [("pub.ext", .bool false), ("pub", .bool true)])
      (.minimal ⟨"pub.ext", some "*", none, none⟩) = .denied .notInAllowedList := by
  refine ⟨?_, ?_, by decide⟩
  · intro a₁ a₂ t₁ t₂ d v h1 h2
    simp only [isAllowed, isAllowedFields, h1, h2]
  · intro a t d v h1 hb hr hl
    simp only [isAllowed, isAllowedFields, h1]
    cases v with
    | bool b =>
      cases b with
      | true => simp [idLevelVerdict]
      | false => exact absurd rfl hb
    | str s =>
      cases hc : (s == "release" && (normalizeFields d).prerelease) with
      | true =>
        obtain ⟨hs, hp⟩ := Bool.and_eq_true_iff.mp hc
        exact absurd ⟨by rw [beq_iff_eq.mp hs], hp⟩ hr
      | false => simp [idLevelVerdict, hc]
    | list entries =>
      rcases hl entries rfl with h | h
      · simp [idLevelVerdict, h]
      · simp [idLevelVerdict, h]

/-- C2 witness: the id-only dependence at a concrete pair of tables and the
permitted outcome of an id-level `true` binding. -/
theorem C2_witness :
    isAllowed [("z", "w")] (some [("q.r", .bool true), ("q", .bool false)])
        (.minimal ⟨"q.r", none, none, none⟩)
      = isAllowed [] (some [("q.r", .bool true)])
          (.minimal ⟨"q.r", none, none, none⟩) ∧
    isAllowed [] (some [("q.r", .bool true), ("q", .bool false)])
        (.minimal ⟨"q.r", none, none, none⟩) = .allowed := by
  constructor
  · exact C2_theorem.1 _ _ _ _ _ (.bool true) (by decide) (by decide)
  · exact C2_theorem.2.1 [] _ _ (.bool true) (by decide) (by decide) (by decide)
      (fun entries h => AllowedValue.noConfusion h)

/-- C3: the configuration consisting of exactly `{"*": true}` normalizes to
no policy, and evaluation under it coincides with evaluation under an absent
configuration — permitted for every descriptor. -/
theorem C3_theorem :
    getAllowedExtensionsValue (.obj [("*", .bool true)]) = none ∧
    ∀ (a : List (String × String)) (d : ExtensionDescriptor),
      evaluateConfig a (.obj [("*", .bool true)]) d = evaluateConfig a .undef d ∧
      evaluateConfig a .undef d = .allowed :=
  ⟨rfl, fun _ _ => ⟨rfl, rfl⟩⟩

/-- C4: an absent, non-object, or top-level-array configuration loads as no
policy, and with no policy table evaluate returns permitted for every
descriptor of any of the three shapes. -/
theorem C4_theorem :
    getAllowedExtensionsValue .undef = none ∧
    getAllowedExtensionsValue .nonObject = none ∧
    getAllowedExtensionsValue .array = none ∧
    ∀ (a : List (String × String)) (d : ExtensionDescriptor),
      isAllowed a none d = .allowed ∧
      evaluateConfig a .undef d = .allowed ∧
      evaluateConfig a .nonObject d = .allowed ∧
      evaluateConfig a .array d = .allowed :=
  ⟨rfl, rfl, rfl, fun _ _ => ⟨rfl, rfl, rfl, rfl⟩⟩

/-- C5: against the sequence `["1.2.3@win32", "1.2.3@darwin"]` for id
`pub.ext`, version `1.2.3` on `win32` is permitted and the same version on
`linux` is denied; and whenever the id's policy value is a sequence and the
descriptor's version is `*`, evaluate returns permitted regardless of the
sequence's contents. -/
theorem C5_theorem :
    isAllowed [] (some [("pub.ext", .list ["1.2.3@win32", "1.2.3@darwin"])])
      (.minimal ⟨"pub.ext", some "1.2.3", none, some "win32"⟩) = .allowed ∧
    isAllowed [] (some [("pub.ext", .list ["1.2.3@win32", "1.2.3@darwin"])])
      (.minimal ⟨"pub.ext", some "1.2.3", none, some "linux"⟩)
      = .denied .notInAllowedList ∧
    ∀ (a : List (String × String)) (t : Table) (d : ExtensionDescriptor)
      (entries : List String),
      assocLast t (normalizeFields d).id = some (.list entries) →
      (normalizeFields d).version = "*" →
      isAllowed a (some t) d = .allowed := by
  refine ⟨by decide, by decide, ?_⟩
  intro a t d entries h1 h2
  simp [isAllowed, isAllowedFields, h1, idLevelVerdict, h2]

/-- C5 witness: the version-`*` bypass applied to a concrete table whose
sequence contains no matching entry. -/
theorem C5_witness :
    isAllowed [] (some [("w.x", AllowedValue.list ["3.3.3@win32"])])
      (.minimal ⟨"w.x", none, none, none⟩) = .allowed :=
  C5_theorem.2.2 [] _ _ ["3.3.3@win32"] (by decide) (by decide)

/-- C6: when the id-level policy value is the string `"release"`, every
descriptor with that id is denied with the prerelease-specific reason if its
prerelease flag is set, and permitted if the flag is clear. -/
theorem C6_theorem (a : List (String × String)) (t : Table)
    (d : ExtensionDescriptor)
    (h : assocLast t (normalizeFields d).id = some (.str "release")) :
    ((normalizeFields d).prerelease = true →
      isAllowed a (some t) d = .denied .prereleaseOfExtensionNotAllowed) ∧
    ((normalizeFields d).prerelease = false →
      isAllowed a (some t) d = .allowed) := by
  constructor <;> intro hp <;>
    simp [isAllowed, isAllowedFields, h, idLevelVerdict, hp]

/-- C6 witness: the prerelease gate at the table `{"p.e": "release"}` for a
prerelease and a non-prerelease descriptor. -/
theorem C6_witness :
    isAllowed [] (some [("p.e", AllowedValue.str "release")])
      (.minimal ⟨"p.e", none, some true, none⟩)
      = .denied .prereleaseOfExtensionNotAllowed ∧
    isAllowed [] (some [("p.e", AllowedValue.str "release")])
      (.minimal ⟨"p.e", none, some false, none⟩) = .allowed :=
  ⟨(C6_theorem [] _ _ (by decide)).1 (by decide),
   (C6_theorem [] _ _ (by decide)).2 (by decide)⟩

/-- C7: at the publisher level, a present value that is neither a boolean
nor the `"release"` marker hitting a prerelease descriptor — in particular a
version-descriptor sequence — permits unconditionally, with no version or
platform filtering. -/
theorem C7_theorem (a : List (String × String)) (t : Table)
    (d : ExtensionDescriptor) (v : AllowedValue)
    (h1 : assocLast t (normalizeFields d).id = none)
    (h2 : assocLast t (resolvedPublisher a (normalizeFields d)) = some v)
    (h3 : ∀ b, v ≠ .bool b)
    (h4 : ¬(v = .str "release" ∧ (normalizeFields d).prerelease = true)) :
    isAllowed a (some t) d = .allowed := by
  simp only [isAllowed, isAllowedFields, h1, h2]
  cases v with
  | bool b => exact absurd rfl (h3 b)
  | str s =>
    cases hc : (s == "release" && (normalizeFields d).prerelease) with
    | true =>
      obtain ⟨hs, hp⟩ := Bool.and_eq_true_iff.mp hc
      exact absurd ⟨by rw [beq_iff_eq.mp hs], hp⟩ h4
    | false => simp [publisherLevelVerdict, hc]
  | list entries => simp [publisherLevelVerdict]

/-- C7 witness: a publisher-level version sequence that matches nothing
about the descriptor still permits it. -/
theorem C7_witness :
    isAllowed [] (some [("pub", AllowedValue.list ["9.9.9@win32"])])
      (.minimal ⟨"pub.thing", some "1.0.0", none, none⟩) = .allowed :=
  C7_theorem [] _ _ (.list ["9.9.9@win32"])
    (by decide) (by decide) (by decide) (by decide)

/-- C8: when neither the id nor the resolved publisher is a table key,
evaluate permits exactly when the table binds `*` to the boolean `true`, and
otherwise denies with the generic not-in-allowed-list reason. -/
theorem C8_theorem (a : List (String × String)) (t : Table)
    (d : ExtensionDescriptor)
    (h1 : assocLast t (normalizeFields d).id = none)
    (h2 : assocLast t (resolvedPublisher a (normalizeFields d)) = none) :
    (isAllowed a (some t) d = .allowed ↔
      assocLast t "*" = some (.bool true)) ∧
    (assocLast t "*" ≠ some (.bool true) →
      isAllowed a (some t) d = .denied .notInAllowedList) := by
  by_cases hw : assocLast t "*" = some (.bool true) <;>
    simp [isAllowed, isAllowedFields, h1, h2, hw]

/-- C8 witness: the table `{"x.y": true}` with no wildcard denies the
unrelated id `a.b` whose publisher `a` is also absent. -/
theorem C8_witness :
    isAllowed [] (some [("x.y", AllowedValue.bool true)])
      (.minimal ⟨"a.b", none, none, none⟩) = .denied .notInAllowedList :=
  (C8_theorem [] _ _ (by decide) (by decide)).2 (by decide)

/-- The id-level verdict reads only the version, prerelease and target
platform fields, never the publisher. -/
lemma idLevelVerdict_publisher_irrel (v : AllowedValue) (f : NormalizedFields)
    (p : String) :
    idLevelVerdict v { f with publisher := p } = idLevelVerdict v f := by
  cases v <;> rfl

/-- The publisher-level verdict reads only the prerelease field, never the
publisher. -/
lemma publisherLevelVerdict_publisher_irrel (v : AllowedValue)
    (f : NormalizedFields) (p : String) :
    publisherLevelVerdict v { f with publisher := p } = publisherLevelVerdict v f := by
  cases v <;> rfl

/-- Alias resolution factors through the publisher field: evaluating with an
alias table agrees with evaluating alias-free on the fields whose publisher
has been replaced by its resolved form. -/
lemma isAllowedFields_resolvedPublisher (a : List (String × String))
    (t : Table) (f : NormalizedFields) :
    isAllowedFields a t f
      = isAllowedFields [] t { f with publisher := resolvedPublisher a f } := by
  unfold isAllowedFields
  dsimp only
  cases hid : assocLast t f.id with
  | some v => exact (idLevelVerdict_publisher_irrel v f _).symm
  | none =>
    have hkey : resolvedPublisher [] { f with publisher := resolvedPublisher a f }
        = resolvedPublisher a f := rfl
    rw [hkey]
    cases hpub : assocLast t (resolvedPublisher a f) with
    | some w => exact (publisherLevelVerdict_publisher_irrel w f _).symm
    | none => rfl

/-- C9: the alias table is applied exactly at the publisher-level lookup:
with aliases `{"oldname": "newname"}` and table `{"newname": false}` a
descriptor publishing as `oldname` (id absent from the table) is denied;
with no alias entry for the publisher, evaluation agrees with an empty alias
table; with an alias entry, evaluation agrees with an empty alias table on
the fields with the publisher replaced by the lowercased canonical name. -/
theorem C9_theorem :
    isAllowed [("oldname", "newname")] (some [("newname", .bool false)])
      (.minimal ⟨"oldname.ext", none, none, none⟩)
      = .denied .publisherNotAllowed ∧
    (∀ (a : List (String × String)) (t : Table) (f : NormalizedFields),
        assocLast a f.publisher = none →
        isAllowedFields a t f = isAllowedFields [] t f) ∧
    (∀ (a : List (String × String)) (t : Table) (f : NormalizedFields)
        (canon : String),
        assocLast a f.publisher = some canon →
        isAllowedFields a t f
          = isAllowedFields [] t { f with publisher := jsToLower canon }) := by
  refine ⟨by decide, ?_, ?_⟩
  · intro a t f h
    have hrp : resolvedPublisher a f = f.publisher := by
      unfold resolvedPublisher
      rw [h]
      rfl
    calc isAllowedFields a t f
        = isAllowedFields [] t { f with publisher := resolvedPublisher a f } :=
          isAllowedFields_resolvedPublisher a t f
      _ = isAllowedFields [] t f := by rw [hrp]
  · intro a t f canon h
    have hrp : resolvedPublisher a f = jsToLower canon := by
      unfold resolvedPublisher
      rw [h]
      rfl
    have hc := isAllowedFields_resolvedPublisher a t f
    rw [hrp] at hc
    exact hc

/-- C9 witness: the no-alias fallback and the alias substitution at concrete
tables and fields. -/
theorem C9_witness :
    isAllowedFields [("pp", "qq")] [("rr", AllowedValue.bool true)]
        ⟨"s.t", "*", false, "s", "universal"⟩
      = isAllowedFields [] [("rr", AllowedValue.bool true)]
          ⟨"s.t", "*", false, "s", "universal"⟩ ∧
    isAllowedFields [("s", "u")] [("uu", AllowedValue.bool true)]
        ⟨"s.t", "*", false, "s", "universal"⟩
      = isAllowedFields [] [("uu", AllowedValue.bool true)]
          ⟨"s.t", "*", false, "u", "universal"⟩ := by
  constructor
  · exact C9_theorem.2.1 _ _ _ (by decide)
  · exact C9_theorem.2.2 [("s", "u")] _ _ "u" (by decide)

/-- C10: a minimal-record id with no `.` separator derives the empty-string
publisher (indexOf returns `-1` and substring clamps it to an empty range),
so the publisher-level lookup key is `""` and cannot match any table entry
whose key is nonempty. -/
theorem C10_theorem (s : String) (v : Option String) (pr : Option Bool)
    (tp : Option String) (h : '.' ∉ s.data) :
    (normalizeFields (.minimal ⟨s, v, pr, tp⟩)).publisher = "" ∧
    ∀ (t : Table), (∀ e ∈ t, e.1 ≠ "") →
      assocLast t (normalizeFields (.minimal ⟨s, v, pr, tp⟩)).publisher = none := by
  have hidx : jsIndexOf s '.' = -1 := by
    unfold jsIndexOf
    rw [List.findIdx?_eq_none_iff.mpr ?_]
    intro x hx
    exact beq_eq_false_iff_ne.mpr (fun hxe => h (hxe ▸ hx))
  have hpub : (normalizeFields (.minimal ⟨s, v, pr, tp⟩)).publisher = "" := by
    show jsToLower (jsSubstring s 0 (jsIndexOf s '.')) = ""
    rw [hidx]
    have h1 : (max 0 (min (0 : Int) (s.data.length : Int))).toNat = 0 := by omega
    have h2 : (max 0 (min (-1 : Int) (s.data.length : Int))).toNat = 0 := by omega
    simp [jsSubstring, h1, h2, jsToLower, List.asString]
  refine ⟨hpub, ?_⟩
  intro t ht
  rw [hpub]
  unfold assocLast
  rw [List.find?_eq_none.mpr ?_]
  · rfl
  · intro e he
    exact beq_eq_false_iff_ne.mpr (ht e (List.mem_reverse.mp he)) ▸ Bool.false_ne_true

/-- C10 witness: the dot-free id `nodot` derives publisher `""`, which finds
nothing in a table whose only key is nonempty. -/
theorem C10_witness :
    (normalizeFields (.minimal ⟨"nodot", none, none, none⟩)).publisher = "" ∧
    assocLast [("k", AllowedValue.bool true)]
      (normalizeFields (.minimal ⟨"nodot", none, none, none⟩)).publisher = none := by
  have h := C10_theorem "nodot" none none none (by decide)
  exact ⟨h.1, h.2 _ (by decide)⟩

end AllowedExtensions
